import Mathlib

/-!
Shallow embedding of `src/dynamic_list.py` (class `DynamicList`).

Python runtime values that can appear in a `DynamicList` are modelled by
`PyVal`; Python numeric values (`int`, `float`, `bool`) are carried as exact
rationals (`ℚ`).  Python classes relevant to the container are modelled by
`PyType`, with `issubclass` reflecting Python's `bool <: int` relation.
The `allowed_type` constructor argument may be a single class or a tuple of
classes, modelled by `AllowedSpec`.  Exceptions are modelled by the `Err`
enumeration and fallible methods return `Except Err _`.
-/

namespace PyDyn

/-- Python classes that element values of the container can have. -/
inductive PyType
  | tInt
  | tFloat
  | tBool
  | tStr
deriving DecidableEq, Repr

/-- Python `issubclass` restricted to the modelled classes:
reflexive, plus `bool` is a subclass of `int`. -/
def issubclass (a b : PyType) : Bool :=
  a == b || (a == .tBool && b == .tInt)

/-- Python runtime values storable in a `DynamicList`. -/
inductive PyVal
  | vInt : Int → PyVal
  | vBool : Bool → PyVal
  | vFloat : ℚ → PyVal
  | vStr : String → PyVal
deriving DecidableEq, Repr

/-- `type(v)` for the modelled values. -/
def typeOf : PyVal → PyType
  | .vInt _ => .tInt
  | .vBool _ => .tBool
  | .vFloat _ => .tFloat
  | .vStr _ => .tStr

/-- Whether the value is one of Python's numeric values
(`isinstance(v, (int, float))`, which accepts `bool`). -/
def isNumV : PyVal → Bool
  | .vStr _ => false
  | _ => true

/-- Numeric value of a Python number, as an exact rational
(`True`/`False` count as `1`/`0`; the `vStr` case is junk, it is
never used on non-numeric values). -/
def toQ : PyVal → ℚ
  | .vInt n => (n : ℚ)
  | .vBool b => if b then 1 else 0
  | .vFloat q => q
  | .vStr _ => 0

/-- The `allowed_type` argument of `DynamicList.__init__`: a single class
or a tuple of classes (Python tuples compare by sequence equality, so the
spec is compared structurally, exactly like the source's `!=` check). -/
inductive AllowedSpec
  | single : PyType → AllowedSpec
  | tuple : List PyType → AllowedSpec
deriving DecidableEq, Repr

/-- `isinstance(v, allowed)` for a class-or-tuple second argument. -/
def isinstance (v : PyVal) : AllowedSpec → Bool
  | .single t => issubclass (typeOf v) t
  | .tuple ts => ts.any (fun t => issubclass (typeOf v) t)

/-- The default `allowed_type=(int, float)` of the source. -/
def defaultAllowed : AllowedSpec := .tuple [.tInt, .tFloat]

/-- `self.__allowed_type if isinstance(self.__allowed_type, tuple) else
(self.__allowed_type,)` — the normalised list of allowed classes. -/
def AllowedSpec.types : AllowedSpec → List PyType
  | .single t => [t]
  | .tuple ts => ts

/-- `issubclass(t, (int, float))` as in `__validate_contents_are_numeric`. -/
def numericType (t : PyType) : Bool :=
  issubclass t .tInt || issubclass t .tFloat

/-- Whether every allowed class is numeric
(the success condition of `__validate_contents_are_numeric`,
emptiness aside). -/
def numericAllowed (a : AllowedSpec) : Bool :=
  a.types.all numericType

/-- The exceptions the methods of the source can raise.  The library's own
exception classes are listed first; `typeError`, `valueError`,
`builtinIndexError` and `zeroDivisionError` model the *builtin* Python
exceptions raised by plain operations inside the methods. -/
inductive Err
  | invalidElementType
  | wrongDataType
  | emptyList
  | indexOutOfRange
  | lengthNotEqual
  | unknownValue
  | typeError
  | valueError
  | builtinIndexError
  | zeroDivisionError
deriving DecidableEq, Repr

instance {ε α : Type _} [DecidableEq ε] [DecidableEq α] :
    DecidableEq (Except ε α) := fun a b =>
  match a, b with
  | .error e, .error f =>
    decidable_of_iff (e = f)
      ⟨fun h => by rw [h], fun h => by cases h; rfl⟩
  | .ok x, .ok y =>
    decidable_of_iff (x = y)
      ⟨fun h => by rw [h], fun h => by cases h; rfl⟩
  | .error _, .ok _ => .isFalse (fun h => by cases h)
  | .ok _, .error _ => .isFalse (fun h => by cases h)

/-- Result of `mode()`: a single value when one mode exists,
else the list of tied modes. -/
inductive ModeResult
  | one : PyVal → ModeResult
  | many : List PyVal → ModeResult
deriving DecidableEq, Repr

/-- One step of Python's `min` scan: keep the challenger only when it is
strictly smaller. -/
def qmin2 (a b : ℚ) : ℚ := if b < a then b else a

/-- One step of Python's `max` scan: keep the challenger only when it is
strictly larger. -/
def qmax2 (a b : ℚ) : ℚ := if a < b then b else a

/-- `min()` over a nonempty sequence of rationals
(the `[]` case is junk: the source validates non-emptiness first). -/
def qminList : List ℚ → ℚ
  | [] => 0
  | x :: xs => xs.foldl qmin2 x

/-- `max()` over a nonempty sequence of rationals. -/
def qmaxList : List ℚ → ℚ
  | [] => 0
  | x :: xs => xs.foldl qmax2 x

/-- Ordered insertion, auxiliary to `sortQ`. -/
def insertQ (x : ℚ) : List ℚ → List ℚ
  | [] => [x]
  | y :: ys => if x ≤ y then x :: y :: ys else y :: insertQ x ys

/-- Python `sorted` on numeric values (numeric order; ties irrelevant
because only the values are used afterwards). -/
def sortQ : List ℚ → List ℚ
  | [] => []
  | x :: xs => insertQ x (sortQ xs)

/-- Three-way comparison of rationals (Python `<`/`==`/`>` on numbers). -/
def qCmp (a b : ℚ) : Ordering :=
  if a < b then .lt else if b < a then .gt else .eq

/-- Three-way comparison of strings (Python `<`/`==`/`>` on `str`). -/
def strCmp (a b : String) : Ordering :=
  if a < b then .lt else if b < a then .gt else .eq

/-- Comparison of two Python values as list comparison performs it:
numbers compare numerically (`bool` as `0`/`1`), strings lexicographically,
and a number against a string raises `TypeError`. -/
def pyCmp (a b : PyVal) : Except Err Ordering :=
  if isNumV a && isNumV b then .ok (qCmp (toQ a) (toQ b))
  else
    match a, b with
    | .vStr s, .vStr t => .ok (strCmp s t)
    | _, _ => .error .typeError

/-- Python list three-way comparison: scan for the first non-equal pair,
propagating a `TypeError` raised by an element comparison. -/
def pyListCmp : List PyVal → List PyVal → Except Err Ordering
  | [], [] => .ok .eq
  | [], _ :: _ => .ok .lt
  | _ :: _, [] => .ok .gt
  | a :: as, b :: bs =>
    match pyCmp a b with
    | .error e => .error e
    | .ok .eq => pyListCmp as bs
    | .ok o => .ok o

/-- Abstract lexicographic three-way comparison of rational sequences,
used to state what the ordering operators compute on numeric data. -/
def qListCmp : List ℚ → List ℚ → Ordering
  | [], [] => .eq
  | [], _ :: _ => .lt
  | _ :: _, [] => .gt
  | a :: as, b :: bs =>
    match qCmp a b with
    | .eq => qListCmp as bs
    | o => o

/-- Python `==` between two element values: numbers compare by value
(`1 == 1.0 == True`), strings by content, number vs string is `False`. -/
def pyValEq (a b : PyVal) : Bool :=
  if isNumV a && isNumV b then toQ a == toQ b
  else
    match a, b with
    | .vStr s, .vStr t => s == t
    | _, _ => false

/-- Python `==` between two lists of element values. -/
def pyListEq : List PyVal → List PyVal → Bool
  | [], [] => true
  | a :: as, b :: bs => pyValEq a b && pyListEq as bs
  | _, _ => false

/-- The state of a `DynamicList`: the `__allowed_type` spec and the
`__data` list. -/
structure DynList where
  allowed : AllowedSpec
  data : List PyVal
deriving DecidableEq, Repr

/-- The representation invariant: every stored element is an instance of
the allowed-type spec. -/
def Inv (dl : DynList) : Prop :=
  dl.data.all (fun v => isinstance v dl.allowed) = true

instance (dl : DynList) : Decidable (Inv dl) :=
  decidable_of_iff (dl.data.all (fun v => isinstance v dl.allowed) = true) Iff.rfl

namespace DynList

/-- `__validate_type(value)` against a given allowed spec. -/
def validateType (a : AllowedSpec) (v : PyVal) : Except Err Unit :=
  if isinstance v a then .ok () else .error .invalidElementType

/-- `append(value)`: validate, then push at the end. -/
def append (dl : DynList) (v : PyVal) : Except Err DynList :=
  match validateType dl.allowed v with
  | .error e => .error e
  | .ok _ => .ok ⟨dl.allowed, dl.data ++ [v]⟩

/-- `list.insert` positional placement for an in-range position. -/
def insertAt : Nat → PyVal → List PyVal → List PyVal
  | _, v, [] => [v]
  | 0, v, l => v :: l
  | n + 1, v, x :: xs => x :: insertAt n v xs

/-- `insert(index, value)`: range check (inclusive upper bound), type
check, then placement; a negative index counts from the end. -/
def insert (dl : DynList) (i : Int) (v : PyVal) : Except Err DynList :=
  if (dl.data.length : Int) < i ∨ i < -(dl.data.length : Int) then
    .error .indexOutOfRange
  else
    match validateType dl.allowed v with
    | .error e => .error e
    | .ok _ =>
      .ok ⟨dl.allowed,
        insertAt (if i < 0 then (i + dl.data.length).toNat else i.toNat) v dl.data⟩

/-- The loop of `extend(l)`: validate each element, appending as it goes;
the first invalid element raises `InvalidElementTypeError`. -/
def extendList (a : AllowedSpec) : List PyVal → List PyVal → Except Err (List PyVal)
  | acc, [] => .ok acc
  | acc, x :: xs =>
    if isinstance x a then extendList a (acc ++ [x]) xs
    else .error .invalidElementType

/-- `extend(l)` on a receiver (the partially mutated receiver is dropped on
failure; no claim observes a receiver after a failed `extend`). -/
def extend (dl : DynList) (l : List PyVal) : Except Err DynList :=
  match extendList dl.allowed dl.data l with
  | .error e => .error e
  | .ok d => .ok ⟨dl.allowed, d⟩

/-- `DynamicList.from_list(regular_list, allowed_type)`: a fresh empty
container extended with the given values. -/
def from_list (l : List PyVal) (a : AllowedSpec) : Except Err DynList :=
  extend ⟨a, []⟩ l

/-- `__setitem__(index, value)`: validate the type first; the raw
`self.__data[index] = value` raises Python's builtin `IndexError` when the
index is out of range. -/
def setitem (dl : DynList) (i : Int) (v : PyVal) : Except Err DynList :=
  match validateType dl.allowed v with
  | .error e => .error e
  | .ok _ =>
    if (dl.data.length : Int) ≤ i ∨ i < -(dl.data.length : Int) then
      .error .builtinIndexError
    else
      .ok ⟨dl.allowed,
        dl.data.set (if i < 0 then (i + dl.data.length).toNat else i.toNat) v⟩

/-- `__delitem__(index)`: `__validate_index_error` (the library's
`IndexOutOfRangeError`), then delete. -/
def delitem (dl : DynList) (i : Int) : Except Err DynList :=
  if (dl.data.length : Int) ≤ i ∨ i < -(dl.data.length : Int) then
    .error .indexOutOfRange
  else
    .ok ⟨dl.allowed,
      dl.data.eraseIdx (if i < 0 then (i + dl.data.length).toNat else i.toNat)⟩

/-- `__getitem__` with an `int` index: the raw `self.__data[index]` raises
Python's builtin `IndexError` (not the library's `IndexOutOfRangeError`)
when the index is out of range. -/
def getitemInt (dl : DynList) (i : Int) : Except Err PyVal :=
  if (dl.data.length : Int) ≤ i ∨ i < -(dl.data.length : Int) then
    .error .builtinIndexError
  else
    .ok (dl.data.getD (if i < 0 then (i + dl.data.length).toNat else i.toNat) (.vInt 0))

end DynList

/-- A Python `slice` object: optional start, stop, step. -/
structure PySlice where
  start : Option Int
  stop : Option Int
  step : Option Int
deriving DecidableEq, Repr

/-- CPython's slice-index adjustment (`PySlice_AdjustIndices`): a missing
bound takes the default `d`; a negative bound counts from the end and is
clamped below, an overlarge bound is clamped above; the clamp values depend
on the sign of the step. -/
def adjustIndex (step : Int) (n : Nat) (d : Int) : Option Int → Int
  | none => d
  | some i =>
    if i < 0 then
      if i + n < 0 then (if step < 0 then -1 else 0) else i + n
    else
      if (n : Int) ≤ i then (if step < 0 then (n : Int) - 1 else (n : Int)) else i

/-- The list of element indices a slice selects from a sequence of length
`n`: `start, start+step, ...` while strictly before/after `stop`; a zero
step raises Python's `ValueError`. -/
def sliceIndices (s : PySlice) (n : Nat) : Except Err (List Int) :=
  let step := s.step.getD 1
  if step = 0 then .error .valueError
  else
    let st := adjustIndex step n (if step < 0 then (n : Int) - 1 else 0) s.start
    let sp := adjustIndex step n (if step < 0 then -1 else (n : Int)) s.stop
    let count : Nat :=
      if 0 < step then ((sp - st).toNat + (step.toNat - 1)) / step.toNat
      else ((st - sp).toNat + ((-step).toNat - 1)) / (-step).toNat
    .ok ((List.range count).map (fun k : Nat => st + step * (k : Int)))

/-- Reading a list at each of a list of (in-range) indices. -/
def gather (l : List PyVal) (idxs : List Int) : List PyVal :=
  idxs.map (fun i => l.getD i.toNat (.vInt 0))

namespace DynList

/-- `__getitem__` with a `slice` index: select the elements and rebuild a
container with the receiver's allowed spec via `from_list`. -/
def getitemSlice (dl : DynList) (s : PySlice) : Except Err DynList :=
  match sliceIndices s dl.data.length with
  | .error e => .error e
  | .ok idxs => from_list (gather dl.data idxs) dl.allowed

/-- `__eq__`: requires the other operand to be a `DynamicList` (always true
in this typed model) with an identical `allowed_type`, then compares the
data lists with Python `==`. -/
def eq (x y : DynList) : Except Err Bool :=
  if x.allowed = y.allowed then .ok (pyListEq x.data y.data)
  else .error .wrongDataType

/-- `__lt__`: only `__validate_other` (always true here), then Python's
lexicographic `list <` on the data. -/
def lt (x y : DynList) : Except Err Bool :=
  match pyListCmp x.data y.data with
  | .error e => .error e
  | .ok o => .ok (o == .lt)

/-- `__le__`: Python's `list <=` on the data. -/
def le (x y : DynList) : Except Err Bool :=
  match pyListCmp x.data y.data with
  | .error e => .error e
  | .ok o => .ok (o == .lt || o == .eq)

/-- `__gt__`: Python's `list >` on the data. -/
def gt (x y : DynList) : Except Err Bool :=
  match pyListCmp x.data y.data with
  | .error e => .error e
  | .ok o => .ok (o == .gt)

/-- `__ge__`: Python's `list >=` on the data. -/
def ge (x y : DynList) : Except Err Bool :=
  match pyListCmp x.data y.data with
  | .error e => .error e
  | .ok o => .ok (o == .gt || o == .eq)

/-- `concat(other)`: a fresh container with the receiver's allowed spec is
extended with the receiver's data, then with the other operand's data; the
other operand's elements are validated against the *receiver's* allowed
spec (there is no allowed-type equality check in the source). -/
def concat (x y : DynList) : Except Err DynList :=
  match extend ⟨x.allowed, []⟩ x.data with
  | .error e => .error e
  | .ok r => extend r y.data

/-- `__validate_empty_list`. -/
def validateEmptyList (dl : DynList) : Except Err Unit :=
  if dl.data.length = 0 then .error .emptyList else .ok ()

/-- `__validate_contents_are_numeric`: empty check first, then every
allowed class must be a subclass of `(int, float)`. -/
def validateNumeric (dl : DynList) : Except Err Unit :=
  match validateEmptyList dl with
  | .error e => .error e
  | .ok _ =>
    if numericAllowed dl.allowed then .ok () else .error .wrongDataType

/-- `sum()`: validates each *element* against `(int, float)` (no emptiness
or allowed-type check), then sums; the empty list sums to `0`. -/
def sum (dl : DynList) : Except Err ℚ :=
  if dl.data.all isNumV then .ok ((dl.data.map toQ).sum)
  else .error .invalidElementType

/-- `product()`: numeric-contents validation, then
`reduce(lambda x, y: x * y, data, 1)`. -/
def product (dl : DynList) : Except Err ℚ :=
  match validateNumeric dl with
  | .error e => .error e
  | .ok _ => .ok ((dl.data.map toQ).foldl (fun x y => x * y) 1)

/-- `min()`: numeric-contents validation, then the smallest value. -/
def min (dl : DynList) : Except Err ℚ :=
  match validateNumeric dl with
  | .error e => .error e
  | .ok _ => .ok (qminList (dl.data.map toQ))

/-- `max()`: numeric-contents validation, then the largest value. -/
def max (dl : DynList) : Except Err ℚ :=
  match validateNumeric dl with
  | .error e => .error e
  | .ok _ => .ok (qmaxList (dl.data.map toQ))

/-- `mean()`: numeric-contents validation, then `sum(data) / len(data)`. -/
def mean (dl : DynList) : Except Err ℚ :=
  match validateNumeric dl with
  | .error e => .error e
  | .ok _ => .ok ((dl.data.map toQ).sum / (dl.data.length : ℚ))

/-- The arithmetic of `median()` on the sorted values. -/
def medianCore (qs : List ℚ) : ℚ :=
  let n := qs.length
  let mid := n / 2
  if n % 2 ≠ 0 then qs.getD mid 0
  else (qs.getD (mid - 1) 0 + qs.getD mid 0) / 2

/-- `median()`: numeric-contents validation, sort, then midpoint or the
average of the two central values. -/
def median (dl : DynList) : Except Err ℚ :=
  match validateNumeric dl with
  | .error e => .error e
  | .ok _ => .ok (medianCore (sortQ (dl.data.map toQ)))

/-- Occurrence count of a value in a list under Python `==`
(`Counter`'s per-key count). -/
def countOcc (l : List PyVal) (v : PyVal) : Nat :=
  (l.filter (fun w => pyValEq v w)).length

/-- The keys of `Counter(l)` in first-encounter order, merged under
Python `==` (fuel-based structural recursion; `l.length` fuel always
suffices because filtering only shrinks the tail). -/
def dedupKeysFuel : Nat → List PyVal → List PyVal
  | _, [] => []
  | 0, _ :: _ => []
  | fuel + 1, x :: xs => x :: dedupKeysFuel fuel (xs.filter (fun y => ! pyValEq x y))

/-- The keys of `Counter(l)` in first-encounter order. -/
def dedupKeys (l : List PyVal) : List PyVal :=
  dedupKeysFuel l.length l

/-- `modes[0] if len(modes) == 1 else modes`. -/
def modeResultOf : List PyVal → ModeResult
  | [m] => .one m
  | ms => .many ms

/-- `mode()`: only the emptiness check (no numeric-contents validation);
returns the single most frequent value, else the list of tied values in
first-encounter order. -/
def mode (dl : DynList) : Except Err ModeResult :=
  match validateEmptyList dl with
  | .error e => .error e
  | .ok _ =>
    let keys := dedupKeys dl.data
    let counts := keys.map (countOcc dl.data)
    let mx := match counts with
      | [] => 0
      | c :: cs => cs.foldl Nat.max c
    .ok (modeResultOf (keys.filter (fun k => countOcc dl.data k == mx)))

/-- `variance()`: numeric-contents validation, then the sample variance
with divisor `n - 1`; on a single element the division `… / 0` raises
Python's `ZeroDivisionError`. -/
def variance (dl : DynList) : Except Err ℚ :=
  match validateNumeric dl with
  | .error e => .error e
  | .ok _ =>
    if dl.data.length = 1 then .error .zeroDivisionError
    else
      let m := (dl.data.map toQ).sum / (dl.data.length : ℚ)
      .ok (((dl.data.map toQ).map (fun x => (x - m) ^ 2)).sum /
        ((dl.data.length : ℚ) - 1))

/-- `var ** 0.5` is irrational in general; the result of `std()` is kept
symbolically as the radicand it is the square root of.  The error
behaviour (all that the claims consult) is exact. -/
structure FloatSqrt where
  radicand : ℚ
deriving DecidableEq, Repr

/-- `std()`: the square root of `variance()`. -/
def std (dl : DynList) : Except Err FloatSqrt :=
  match variance dl with
  | .error e => .error e
  | .ok v => .ok ⟨v⟩

/-- The arithmetic of `percentile(P)` on the sorted values: linear
interpolation at rank `(P/100)*(n-1)` (a single element is returned
directly); `int(rank)` is `Int.floor` here since the rank is
non-negative. -/
def percentileCore (qs : List ℚ) (P : ℚ) : ℚ :=
  if qs.length = 1 then qs.getD 0 0
  else
    let rank : ℚ := P / 100 * ((qs.length : ℚ) - 1)
    let lower : Nat := (Int.floor rank).toNat
    let upper : Nat := Min.min (lower + 1) (qs.length - 1)
    qs.getD lower 0 + (rank - (lower : ℚ)) * (qs.getD upper 0 - qs.getD lower 0)

/-- `percentile(P)`: numeric-contents validation, the `0 <= P <= 100`
check (`UnknownValueError` otherwise), then interpolation. -/
def percentile (dl : DynList) (P : ℚ) : Except Err ℚ :=
  match validateNumeric dl with
  | .error e => .error e
  | .ok _ =>
    if 0 ≤ P ∧ P ≤ 100 then .ok (percentileCore (sortQ (dl.data.map toQ)) P)
    else .error .unknownValue

/-- `data_range()`: only the emptiness check up front, then
`self.max() - self.min()` (each of which runs the numeric validation). -/
def data_range (dl : DynList) : Except Err ℚ :=
  match validateEmptyList dl with
  | .error e => .error e
  | .ok _ =>
    match max dl with
    | .error e => .error e
    | .ok mx =>
      match min dl with
      | .error e => .error e
      | .ok mn => .ok (mx - mn)

/-- `map(func)`: apply to every element; the result's allowed type is the
runtime class of the first produced element (the original spec when the
input is empty); the result is rebuilt—and therefore re-validated—via
`from_list`. -/
def map (dl : DynList) (f : PyVal → PyVal) : Except Err DynList :=
  match dl.data.map f with
  | [] => from_list [] dl.allowed
  | v :: vs => from_list (v :: vs) (.single (typeOf v))

/-- `normalize()`: numeric-contents validation, `min`/`max`, an explicit
guard raising `ValueError` on a constant list, then min-max scaling; the
result container is built with `allowed_type=(int, float)` and every
scaled value is a Python `float`. -/
def normalize (dl : DynList) : Except Err DynList :=
  match validateNumeric dl with
  | .error e => .error e
  | .ok _ =>
    match min dl with
    | .error e => .error e
    | .ok mn =>
      match max dl with
      | .error e => .error e
      | .ok mx =>
        if mx = mn then .error .valueError
        else
          from_list
            (dl.data.map (fun v => .vFloat ((toQ v - mn) / (mx - mn))))
            (.tuple [.tInt, .tFloat])

end DynList

/-! ### Helper lemmas about the embedding -/

theorem extendList_ok (a : AllowedSpec) (l : List PyVal) :
    ∀ acc, (∀ v ∈ l, isinstance v a = true) →
      DynList.extendList a acc l = .ok (acc ++ l) := by
  induction l with
  | nil => intro acc _; simp [DynList.extendList]
  | cons x xs ih =>
    intro acc h
    have hx : isinstance x a = true := h x (List.mem_cons_self x xs)
    simp only [DynList.extendList, hx, if_true]
    rw [ih (acc ++ [x]) (fun v hv => h v (List.mem_cons_of_mem _ hv))]
    simp

theorem extendList_err (a : AllowedSpec) (l : List PyVal) :
    ∀ acc, (∃ v ∈ l, isinstance v a = false) →
      DynList.extendList a acc l = .error .invalidElementType := by
  induction l with
  | nil => intro acc h; rcases h with ⟨v, hv, _⟩; cases hv
  | cons x xs ih =>
    intro acc h
    by_cases hx : isinstance x a = true
    · simp only [DynList.extendList, hx, if_true]
      apply ih
      rcases h with ⟨v, hv, hfalse⟩
      rcases List.mem_cons.1 hv with rfl | hmem
      · rw [hx] at hfalse; cases hfalse
      · exact ⟨v, hmem, hfalse⟩
    · rw [Bool.not_eq_true] at hx
      simp [DynList.extendList, hx]

theorem extendList_all (a : AllowedSpec) (l : List PyVal) :
    ∀ acc res, DynList.extendList a acc l = .ok res →
      (∀ v ∈ acc, isinstance v a = true) → ∀ v ∈ res, isinstance v a = true := by
  induction l with
  | nil =>
    intro acc res h hacc
    simp only [DynList.extendList] at h
    injection h with h
    subst h; exact hacc
  | cons x xs ih =>
    intro acc res h hacc
    by_cases hx : isinstance x a = true
    · simp only [DynList.extendList, hx, if_true] at h
      refine ih (acc ++ [x]) res h ?_
      intro v hv
      rcases List.mem_append.1 hv with hv | hv
      · exact hacc v hv
      · rw [List.mem_singleton] at hv; subst hv; exact hx
    · rw [Bool.not_eq_true] at hx
      simp [DynList.extendList, hx] at h

theorem extend_ok {dl : DynList} {l : List PyVal}
    (h : ∀ v ∈ l, isinstance v dl.allowed = true) :
    DynList.extend dl l = .ok ⟨dl.allowed, dl.data ++ l⟩ := by
  unfold DynList.extend
  rw [extendList_ok dl.allowed l dl.data h]

theorem extend_err {dl : DynList} {l : List PyVal}
    (h : ∃ v ∈ l, isinstance v dl.allowed = false) :
    DynList.extend dl l = .error .invalidElementType := by
  unfold DynList.extend
  rw [extendList_err dl.allowed l dl.data h]

theorem from_list_ok {l : List PyVal} {a : AllowedSpec}
    (h : ∀ v ∈ l, isinstance v a = true) :
    DynList.from_list l a = .ok ⟨a, l⟩ := by
  unfold DynList.from_list DynList.extend
  rw [show (⟨a, []⟩ : DynList).data = [] from rfl, extendList_ok a l [] h]
  rfl

theorem from_list_err {l : List PyVal} {a : AllowedSpec}
    (h : ∃ v ∈ l, isinstance v a = false) :
    DynList.from_list l a = .error .invalidElementType := by
  unfold DynList.from_list DynList.extend
  rw [show (⟨a, []⟩ : DynList).data = [] from rfl, extendList_err a l [] h]

theorem from_list_spec {l : List PyVal} {a : AllowedSpec} {dl' : DynList}
    (h : DynList.from_list l a = .ok dl') :
    dl'.allowed = a ∧ ∀ v ∈ dl'.data, isinstance v a = true := by
  unfold DynList.from_list DynList.extend at h
  cases hres : DynList.extendList a ([] : List PyVal) l with
  | error e => rw [hres] at h; cases h
  | ok d =>
    rw [hres] at h
    injection h with h
    subst h
    refine ⟨rfl, ?_⟩
    exact extendList_all a l [] d hres (fun v hv => absurd hv (List.not_mem_nil v))

theorem insertAt_mem :
    ∀ (n : Nat) (x : PyVal) (l : List PyVal) (v : PyVal),
      v ∈ DynList.insertAt n x l → v = x ∨ v ∈ l := by
  intro n x l
  induction l generalizing n with
  | nil =>
    intro v hv
    cases n <;> simp [DynList.insertAt] at hv <;> exact Or.inl hv
  | cons y ys ih =>
    intro v hv
    cases n with
    | zero =>
      rw [show DynList.insertAt 0 x (y :: ys) = x :: y :: ys from rfl] at hv
      rcases List.mem_cons.1 hv with rfl | h
      · exact Or.inl rfl
      · exact Or.inr h
    | succ m =>
      rw [show DynList.insertAt (m + 1) x (y :: ys) = y :: DynList.insertAt m x ys from rfl] at hv
      rcases List.mem_cons.1 hv with rfl | h
      · exact Or.inr (List.mem_cons_self _ _)
      · rcases ih m v h with h' | h'
        · exact Or.inl h'
        · exact Or.inr (List.mem_cons_of_mem _ h')

theorem mem_of_mem_set :
    ∀ (l : List PyVal) (n : Nat) (x v : PyVal), v ∈ l.set n x → v = x ∨ v ∈ l := by
  intro l
  induction l with
  | nil => intro n x v hv; simp [List.set] at hv
  | cons y ys ih =>
    intro n x v hv
    cases n with
    | zero =>
      rw [List.set_cons_zero] at hv
      rcases List.mem_cons.1 hv with rfl | h
      · exact Or.inl rfl
      · exact Or.inr (List.mem_cons_of_mem _ h)
    | succ m =>
      rw [List.set_cons_succ] at hv
      rcases List.mem_cons.1 hv with rfl | h
      · exact Or.inr (List.mem_cons_self _ _)
      · rcases ih m x v h with h' | h'
        · exact Or.inl h'
        · exact Or.inr (List.mem_cons_of_mem _ h')

theorem pyValEq_refl (v : PyVal) : pyValEq v v = true := by
  cases v <;> simp [pyValEq, isNumV]

theorem pyListEq_refl (l : List PyVal) : pyListEq l l = true := by
  induction l with
  | nil => rfl
  | cons x xs ih => simp [pyListEq, pyValEq_refl, ih]

theorem validateEmptyList_ok {dl : DynList} (h : dl.data ≠ []) :
    DynList.validateEmptyList dl = .ok () := by
  have : dl.data.length ≠ 0 := by simpa using h
  simp [DynList.validateEmptyList, this]

theorem validateEmptyList_empty {dl : DynList} (h : dl.data = []) :
    DynList.validateEmptyList dl = .error .emptyList := by
  simp [DynList.validateEmptyList, h]

theorem validateNumeric_ok {dl : DynList} (h1 : dl.data ≠ [])
    (h2 : numericAllowed dl.allowed = true) :
    DynList.validateNumeric dl = .ok () := by
  simp [DynList.validateNumeric, validateEmptyList_ok h1, h2]

theorem validateNumeric_empty {dl : DynList} (h : dl.data = []) :
    DynList.validateNumeric dl = .error .emptyList := by
  simp [DynList.validateNumeric, validateEmptyList_empty h]

theorem validateNumeric_nonnum {dl : DynList} (h1 : dl.data ≠ [])
    (h2 : numericAllowed dl.allowed = false) :
    DynList.validateNumeric dl = .error .wrongDataType := by
  simp [DynList.validateNumeric, validateEmptyList_ok h1, h2]

theorem qmin2_le_left (a b : ℚ) : qmin2 a b ≤ a := by
  unfold qmin2; split_ifs with h
  · exact le_of_lt h
  · exact le_rfl

theorem qmin2_le_right (a b : ℚ) : qmin2 a b ≤ b := by
  unfold qmin2; split_ifs with h
  · exact le_rfl
  · exact not_lt.1 h

theorem qmax2_ge_left (a b : ℚ) : a ≤ qmax2 a b := by
  unfold qmax2; split_ifs with h
  · exact le_of_lt h
  · exact le_rfl

theorem qmax2_ge_right (a b : ℚ) : b ≤ qmax2 a b := by
  unfold qmax2; split_ifs with h
  · exact le_rfl
  · exact not_lt.1 h

theorem foldl_qmin2_le (l : List ℚ) :
    ∀ a, l.foldl qmin2 a ≤ a ∧ ∀ x ∈ l, l.foldl qmin2 a ≤ x := by
  induction l with
  | nil => exact fun a => ⟨le_rfl, fun x hx => absurd hx (List.not_mem_nil x)⟩
  | cons y ys ih =>
    intro a
    have h := ih (qmin2 a y)
    refine ⟨(h.1).trans (qmin2_le_left a y), ?_⟩
    intro x hx
    rcases List.mem_cons.1 hx with rfl | hx
    · exact (h.1).trans (qmin2_le_right a x)
    · exact h.2 x hx

theorem foldl_qmax2_ge (l : List ℚ) :
    ∀ a, a ≤ l.foldl qmax2 a ∧ ∀ x ∈ l, x ≤ l.foldl qmax2 a := by
  induction l with
  | nil => exact fun a => ⟨le_rfl, fun x hx => absurd hx (List.not_mem_nil x)⟩
  | cons y ys ih =>
    intro a
    have h := ih (qmax2 a y)
    refine ⟨(qmax2_ge_left a y).trans h.1, ?_⟩
    intro x hx
    rcases List.mem_cons.1 hx with rfl | hx
    · exact (qmax2_ge_right a x).trans h.1
    · exact h.2 x hx

theorem qminList_le {l : List ℚ} {x : ℚ} (hx : x ∈ l) : qminList l ≤ x := by
  cases l with
  | nil => cases hx
  | cons y ys =>
    rcases List.mem_cons.1 hx with rfl | hx
    · exact (foldl_qmin2_le ys x).1
    · exact (foldl_qmin2_le ys y).2 x hx

theorem le_qmaxList {l : List ℚ} {x : ℚ} (hx : x ∈ l) : x ≤ qmaxList l := by
  cases l with
  | nil => cases hx
  | cons y ys =>
    rcases List.mem_cons.1 hx with rfl | hx
    · exact (foldl_qmax2_ge ys x).1
    · exact (foldl_qmax2_ge ys y).2 x hx

theorem length_insertQ (x : ℚ) (l : List ℚ) :
    (insertQ x l).length = l.length + 1 := by
  induction l with
  | nil => rfl
  | cons y ys ih => by_cases h : x ≤ y <;> simp [insertQ, h, ih]

theorem length_sortQ (l : List ℚ) : (sortQ l).length = l.length := by
  induction l with
  | nil => rfl
  | cons x xs ih => simp [sortQ, length_insertQ, ih]

theorem pyCmp_numeric {a b : PyVal} (ha : isNumV a = true) (hb : isNumV b = true) :
    pyCmp a b = .ok (qCmp (toQ a) (toQ b)) := by
  simp [pyCmp, ha, hb]

theorem pyListCmp_numeric :
    ∀ {l1 l2 : List PyVal}, l1.all isNumV = true → l2.all isNumV = true →
      pyListCmp l1 l2 = .ok (qListCmp (l1.map toQ) (l2.map toQ)) := by
  intro l1
  induction l1 with
  | nil => intro l2 _ _; cases l2 <;> rfl
  | cons a as ih =>
    intro l2 h1 h2
    cases l2 with
    | nil => rfl
    | cons b bs =>
      rw [List.all_cons, Bool.and_eq_true] at h1 h2
      simp only [pyListCmp, pyCmp_numeric h1.1 h2.1, List.map]
      cases hq : qCmp (toQ a) (toQ b) with
      | eq => simp [qListCmp, hq, ih h1.2 h2.2]
      | lt => simp [qListCmp, hq]
      | gt => simp [qListCmp, hq]

theorem validateType_ok {a : AllowedSpec} {v : PyVal} {u : Unit}
    (h : DynList.validateType a v = .ok u) : isinstance v a = true := by
  unfold DynList.validateType at h
  by_cases hv : isinstance v a = true
  · exact hv
  · rw [Bool.not_eq_true] at hv
    simp [hv] at h

/-! ### Claims -/

/-- Claim C1: every insertion path of the container (`append`, `insert`,
`extend`, index assignment, and `from_list`) validates each value before it
is stored, so every reachable container state satisfies the invariant that
every stored element is an instance of the allowed-type set. -/
theorem C1_insertion_paths_preserve_invariant (dl : DynList) (hInv : Inv dl) :
    (∀ v dl', DynList.append dl v = .ok dl' → Inv dl') ∧
    (∀ i v dl', DynList.insert dl i v = .ok dl' → Inv dl') ∧
    (∀ l dl', DynList.extend dl l = .ok dl' → Inv dl') ∧
    (∀ i v dl', DynList.setitem dl i v = .ok dl' → Inv dl') ∧
    (∀ l a dl', DynList.from_list l a = .ok dl' → Inv dl') := by
  have hInv' : ∀ w ∈ dl.data, isinstance w dl.allowed = true := by
    simpa [Inv, List.all_eq_true] using hInv
  refine ⟨?_, ?_, ?_, ?_, ?_⟩
  · intro v dl' h
    unfold DynList.append at h
    cases hres : DynList.validateType dl.allowed v with
    | error e => rw [hres] at h; cases h
    | ok u =>
      rw [hres] at h
      injection h with h
      subst h
      have hv := validateType_ok hres
      simp only [Inv, List.all_eq_true]
      intro w hw
      rcases List.mem_append.1 hw with hw | hw
      · exact hInv' w hw
      · rw [List.mem_singleton] at hw
        subst hw
        exact hv
  · intro i v dl' h
    unfold DynList.insert at h
    split at h
    · cases h
    · cases hres : DynList.validateType dl.allowed v with
      | error e => rw [hres] at h; cases h
      | ok u =>
        rw [hres] at h
        injection h with h
        subst h
        have hv := validateType_ok hres
        simp only [Inv, List.all_eq_true]
        intro w hw
        rcases insertAt_mem _ v dl.data w hw with rfl | hw
        · exact hv
        · exact hInv' w hw
  · intro l dl' h
    unfold DynList.extend at h
    cases hres : DynList.extendList dl.allowed dl.data l with
    | error e => rw [hres] at h; cases h
    | ok d =>
      rw [hres] at h
      injection h with h
      subst h
      simp only [Inv, List.all_eq_true]
      exact extendList_all dl.allowed l dl.data d hres hInv'
  · intro i v dl' h
    unfold DynList.setitem at h
    cases hres : DynList.validateType dl.allowed v with
    | error e => rw [hres] at h; cases h
    | ok u =>
      rw [hres] at h
      split at h
      · cases h
      · split at h
        · cases h
        · injection h with h
          subst h
          have hv := validateType_ok hres
          simp only [Inv, List.all_eq_true]
          intro w hw
          rcases mem_of_mem_set dl.data _ v w hw with rfl | hw
          · exact hv
          · exact hInv' w hw
  · intro l a dl' h
    have hspec := from_list_spec h
    simp only [Inv, List.all_eq_true]
    intro w hw
    rw [hspec.1]
    exact hspec.2 w hw

theorem C1_insertion_paths_preserve_invariant_witness :
    Inv ⟨defaultAllowed, [.vInt 1]⟩ ∧ Inv ⟨defaultAllowed, [.vInt 1, .vInt 2]⟩ :=
  ⟨by decide,
    (C1_insertion_paths_preserve_invariant ⟨defaultAllowed, [.vInt 1]⟩ (by decide)).1
      (.vInt 2) ⟨defaultAllowed, [.vInt 1, .vInt 2]⟩ (by decide)⟩

/-- Claim C4 (amended): for an integer index outside `[-n, n)`, index deletion
fails with the library's `IndexOutOfRangeError`, while single-element
access fails with Python's builtin `IndexError` (raised by the raw list
indexing in `__getitem__`, which performs no library-level range check);
the container is unchanged (all operations are pure in this model). -/
theorem C4_out_of_range_int_access_and_delete (dl : DynList) (i : Int)
    (h : (dl.data.length : Int) ≤ i ∨ i < -(dl.data.length : Int)) :
    DynList.getitemInt dl i = .error .builtinIndexError ∧
    DynList.delitem dl i = .error .indexOutOfRange := by
  constructor
  · unfold DynList.getitemInt
    rw [if_pos h]
  · unfold DynList.delitem
    rw [if_pos h]

theorem C4_counterexample_getitem_error_kind :
    DynList.getitemInt ⟨defaultAllowed, []⟩ 0 = .error .builtinIndexError ∧
    Err.builtinIndexError ≠ Err.indexOutOfRange := by
  exact ⟨rfl, by decide⟩

theorem C4_out_of_range_int_access_and_delete_witness :
    DynList.getitemInt ⟨defaultAllowed, [.vInt 5]⟩ 7 = .error .builtinIndexError ∧
    DynList.delitem ⟨defaultAllowed, [.vInt 5]⟩ 7 = .error .indexOutOfRange :=
  C4_out_of_range_int_access_and_delete ⟨defaultAllowed, [.vInt 5]⟩ 7 (by decide)

/-- Claim C6: `from_list` is atomic with respect to failure: if some input value
is not an instance of the allowed spec the call fails with
`InvalidElementTypeError` and no container is returned; if every value is
valid the resulting container holds exactly the input values in order. -/
theorem C6_from_list_atomicity (l : List PyVal) (a : AllowedSpec) :
    ((∀ v ∈ l, isinstance v a = true) → DynList.from_list l a = .ok ⟨a, l⟩) ∧
    ((∃ v ∈ l, isinstance v a = false) →
      DynList.from_list l a = .error .invalidElementType) :=
  ⟨from_list_ok, from_list_err⟩

theorem C6_from_list_atomicity_witness :
    DynList.from_list [.vInt 1, .vInt 2] defaultAllowed =
      .ok ⟨defaultAllowed, [.vInt 1, .vInt 2]⟩ ∧
    DynList.from_list [.vInt 1, .vStr "a"] defaultAllowed =
      .error .invalidElementType :=
  ⟨(C6_from_list_atomicity [.vInt 1, .vInt 2] defaultAllowed).1 (by decide),
    (C6_from_list_atomicity [.vInt 1, .vStr "a"] defaultAllowed).2 (by decide)⟩

/-- Claim C9 (amended): `concat` performs no allowed-type equality check; it
only requires the operand to be a container, then validates each of the
other operand's elements against the *receiver's* allowed spec.  When all
of them conform, it returns a new container with the receiver's allowed
spec holding the receiver's data followed by the other's (so its length is
the sum of the operand lengths, both operands being untouched); when one
does not conform it fails with `InvalidElementTypeError`, not
`WrongDataTypeError`. -/
theorem C9_concat_validates_elements_not_specs (x y : DynList) (hx : Inv x) :
    ((∀ v ∈ y.data, isinstance v x.allowed = true) →
      DynList.concat x y = .ok ⟨x.allowed, x.data ++ y.data⟩ ∧
      (x.data ++ y.data).length = x.data.length + y.data.length) ∧
    ((∃ v ∈ y.data, isinstance v x.allowed = false) →
      DynList.concat x y = .error .invalidElementType) := by
  have hx' : ∀ v ∈ x.data, isinstance v x.allowed = true := by
    simpa [Inv, List.all_eq_true] using hx
  have h1 : DynList.extend ⟨x.allowed, []⟩ x.data = .ok ⟨x.allowed, x.data⟩ := by
    simpa using @extend_ok ⟨x.allowed, []⟩ x.data hx'
  constructor
  · intro hy
    refine ⟨?_, by simp⟩
    unfold DynList.concat
    rw [h1]
    show DynList.extend ⟨x.allowed, x.data⟩ y.data = _
    exact @extend_ok ⟨x.allowed, x.data⟩ y.data hy
  · intro hy
    unfold DynList.concat
    rw [h1]
    show DynList.extend ⟨x.allowed, x.data⟩ y.data = _
    exact @extend_err ⟨x.allowed, x.data⟩ y.data hy

theorem C9_counterexample_concat_different_specs :
    DynList.concat ⟨defaultAllowed, [.vInt 1]⟩ ⟨.single .tInt, [.vInt 2]⟩ =
      .ok ⟨defaultAllowed, [.vInt 1, .vInt 2]⟩ ∧
    defaultAllowed ≠ AllowedSpec.single .tInt := by
  exact ⟨rfl, by decide⟩

theorem C9_concat_validates_elements_not_specs_witness :
    DynList.concat ⟨defaultAllowed, [.vInt 1]⟩ ⟨defaultAllowed, [.vInt 2]⟩ =
      .ok ⟨defaultAllowed, [.vInt 1, .vInt 2]⟩ ∧
    DynList.concat ⟨.single .tInt, [.vInt 1]⟩ ⟨.single .tStr, [.vStr "a"]⟩ =
      .error .invalidElementType :=
  ⟨((C9_concat_validates_elements_not_specs ⟨defaultAllowed, [.vInt 1]⟩
        ⟨defaultAllowed, [.vInt 2]⟩ (by decide)).1 (by decide)).1,
    (C9_concat_validates_elements_not_specs ⟨.single .tInt, [.vInt 1]⟩
        ⟨.single .tStr, [.vStr "a"]⟩ (by decide)).2 (by decide)⟩

/-- Claim C3 (amended): the ordering comparisons `<`, `<=`, `>`, `>=` check only
that the operand is a container — they never compare the two allowed-type
specs (unlike `==`) — and compute the lexicographic three-way comparison of
the underlying sequences; on numeric data they therefore succeed even when
the allowed-type specs differ. -/
theorem C3_orderings_lexicographic_no_spec_check (x y : DynList)
    (hx : x.data.all isNumV = true) (hy : y.data.all isNumV = true) :
    DynList.lt x y = .ok (qListCmp (x.data.map toQ) (y.data.map toQ) == .lt) ∧
    DynList.le x y = .ok (qListCmp (x.data.map toQ) (y.data.map toQ) == .lt
      || qListCmp (x.data.map toQ) (y.data.map toQ) == .eq) ∧
    DynList.gt x y = .ok (qListCmp (x.data.map toQ) (y.data.map toQ) == .gt) ∧
    DynList.ge x y = .ok (qListCmp (x.data.map toQ) (y.data.map toQ) == .gt
      || qListCmp (x.data.map toQ) (y.data.map toQ) == .eq) := by
  have h := pyListCmp_numeric hx hy
  refine ⟨?_, ?_, ?_, ?_⟩ <;>
    simp [DynList.lt, DynList.le, DynList.gt, DynList.ge, h]

theorem C3_counterexample_lt_different_specs :
    DynList.lt ⟨.single .tInt, [.vInt 1]⟩ ⟨defaultAllowed, [.vInt 2]⟩ = .ok true ∧
    AllowedSpec.single .tInt ≠ defaultAllowed := by decide

theorem C3_orderings_lexicographic_no_spec_check_witness :
    DynList.lt ⟨.single .tInt, [.vInt 3]⟩ ⟨defaultAllowed, [.vInt 4]⟩ =
      .ok (qListCmp [toQ (.vInt 3)] [toQ (.vInt 4)] == .lt) :=
  (C3_orderings_lexicographic_no_spec_check ⟨.single .tInt, [.vInt 3]⟩
      ⟨defaultAllowed, [.vInt 4]⟩ (by decide) (by decide)).1

/-- Claim C2 (amended): `product`, `min`, `max`, `mean`, `median`, `variance`,
`std`, `percentile` and `data_range` fail with `EmptyListError` on an
empty container and with `WrongDataTypeError` on a non-empty container
whose allowed-type set contains a non-numeric type; `mode`, however, only
checks emptiness (it succeeds on non-numeric contents), and `sum` performs
no emptiness or allowed-type check at all: it returns `0` on an empty
container and validates the actual elements, not the allowed types. -/
theorem C2_statistical_validation (dl : DynList) :
    (dl.data = [] →
      DynList.product dl = .error .emptyList ∧
      DynList.min dl = .error .emptyList ∧
      DynList.max dl = .error .emptyList ∧
      DynList.mean dl = .error .emptyList ∧
      DynList.median dl = .error .emptyList ∧
      DynList.mode dl = .error .emptyList ∧
      DynList.variance dl = .error .emptyList ∧
      DynList.std dl = .error .emptyList ∧
      (∀ p, DynList.percentile dl p = .error .emptyList) ∧
      DynList.data_range dl = .error .emptyList ∧
      DynList.sum dl = .ok 0) ∧
    (dl.data ≠ [] → numericAllowed dl.allowed = false →
      DynList.product dl = .error .wrongDataType ∧
      DynList.min dl = .error .wrongDataType ∧
      DynList.max dl = .error .wrongDataType ∧
      DynList.mean dl = .error .wrongDataType ∧
      DynList.median dl = .error .wrongDataType ∧
      DynList.variance dl = .error .wrongDataType ∧
      DynList.std dl = .error .wrongDataType ∧
      (∀ p, DynList.percentile dl p = .error .wrongDataType) ∧
      DynList.data_range dl = .error .wrongDataType ∧
      (DynList.mode dl).isOk = true) := by
  constructor
  · intro h
    have hv := validateNumeric_empty h
    have he := validateEmptyList_empty h
    refine ⟨?_, ?_, ?_, ?_, ?_, ?_, ?_, ?_, ?_, ?_, ?_⟩ <;>
      simp [DynList.product, DynList.min, DynList.max, DynList.mean,
        DynList.median, DynList.mode, DynList.variance, DynList.std,
        DynList.percentile, DynList.data_range, DynList.sum, hv, he, h]
  · intro h1 h2
    have hv := validateNumeric_nonnum h1 h2
    have he := validateEmptyList_ok h1
    refine ⟨?_, ?_, ?_, ?_, ?_, ?_, ?_, ?_, ?_, ?_⟩ <;>
      simp [DynList.product, DynList.min, DynList.max, DynList.mean,
        DynList.median, DynList.mode, DynList.variance, DynList.std,
        DynList.percentile, DynList.data_range, hv, he, Except.isOk, Except.toBool]

theorem C2_counterexample_sum_empty_succeeds :
    DynList.sum ⟨defaultAllowed, []⟩ = .ok 0 ∧
    (DynList.mode ⟨.single .tStr, [.vStr "a"]⟩).isOk = true := by
  exact ⟨rfl, rfl⟩

theorem C2_statistical_validation_witness :
    DynList.product ⟨defaultAllowed, []⟩ = .error .emptyList ∧
    DynList.mean ⟨.single .tStr, [.vStr "a"]⟩ = .error .wrongDataType :=
  ⟨((C2_statistical_validation ⟨defaultAllowed, []⟩).1 rfl).1,
    ((C2_statistical_validation ⟨.single .tStr, [.vStr "a"]⟩).2
        (by decide) (by decide)).2.2.2.1⟩

/-- Claim C5 (corrected): `L.map(identity) == L` holds only when `L` is empty
(the original allowed spec is preserved), or when `L`'s allowed spec is
exactly the single runtime class of its first element and every element is
an instance of that class; otherwise the rebuilt container's inferred
allowed spec differs from (or rejects) the original, and `==` raises
`WrongDataTypeError` rather than returning `True`. -/
theorem C5_map_identity_conditional (dl : DynList) :
    (dl.data = [] →
      DynList.map dl id = .ok dl ∧ DynList.eq dl dl = .ok true) ∧
    (∀ v t, dl.data.head? = some v → dl.allowed = .single t → typeOf v = t →
      (∀ w ∈ dl.data, issubclass (typeOf w) t = true) →
      ∃ r, DynList.map dl id = .ok r ∧ DynList.eq r dl = .ok true) := by
  obtain ⟨a, d⟩ := dl
  constructor
  · intro h
    simp only at h
    subst h
    constructor
    · show DynList.from_list [] a = .ok ⟨a, []⟩
      exact from_list_ok (fun v hv => absurd hv (List.not_mem_nil v))
    · simp [DynList.eq, pyListEq]
  · intro v t hv ha ht hall
    simp only at hv ha hall
    subst ha
    cases d with
    | nil => cases hv
    | cons w ws =>
      rw [List.head?_cons] at hv
      injection hv with hv
      subst hv
      refine ⟨⟨.single t, w :: ws⟩, ?_, ?_⟩
      · show DynList.from_list (List.map id (w :: ws)) (.single (typeOf w)) = _
        rw [List.map_id, ht]
        exact from_list_ok (fun u hu => hall u hu)
      · simp [DynList.eq, pyListEq_refl]

theorem C5_counterexample_map_identity_not_self :
    DynList.map ⟨defaultAllowed, [.vInt 1]⟩ id = .ok ⟨.single .tInt, [.vInt 1]⟩ ∧
    DynList.eq ⟨.single .tInt, [.vInt 1]⟩ ⟨defaultAllowed, [.vInt 1]⟩ =
      .error .wrongDataType := by
  exact ⟨rfl, rfl⟩

theorem C5_map_identity_conditional_witness :
    (DynList.map ⟨defaultAllowed, []⟩ id = .ok ⟨defaultAllowed, []⟩ ∧
      DynList.eq ⟨defaultAllowed, []⟩ ⟨defaultAllowed, []⟩ = .ok true) ∧
    ∃ r, DynList.map ⟨.single .tInt, [.vInt 1, .vInt 2]⟩ id = .ok r ∧
      DynList.eq r ⟨.single .tInt, [.vInt 1, .vInt 2]⟩ = .ok true :=
  ⟨(C5_map_identity_conditional ⟨defaultAllowed, []⟩).1 rfl,
    (C5_map_identity_conditional ⟨.single .tInt, [.vInt 1, .vInt 2]⟩).2
      (.vInt 1) .tInt rfl rfl rfl (by decide)⟩

/-- Claim C8: `normalize()` on a non-empty numeric container fails with a
`ValueError` (domain error) when the maximum equals the minimum, and
otherwise returns a new container (allowed spec `(int, float)`) mapping
each element `x` to `(x - min) / (max - min)`, every result value lying in
`[0, 1]`; the receiver is unchanged (operations are pure here). -/
theorem C8_normalize_minmax_scaling (dl : DynList) (h1 : dl.data ≠ [])
    (h2 : numericAllowed dl.allowed = true) :
    (qmaxList (dl.data.map toQ) = qminList (dl.data.map toQ) →
      DynList.normalize dl = .error .valueError) ∧
    (qmaxList (dl.data.map toQ) ≠ qminList (dl.data.map toQ) →
      DynList.normalize dl =
        .ok ⟨.tuple [.tInt, .tFloat],
          dl.data.map (fun v => .vFloat ((toQ v - qminList (dl.data.map toQ)) /
            (qmaxList (dl.data.map toQ) - qminList (dl.data.map toQ))))⟩ ∧
      ∀ v ∈ dl.data,
        0 ≤ (toQ v - qminList (dl.data.map toQ)) /
            (qmaxList (dl.data.map toQ) - qminList (dl.data.map toQ)) ∧
        (toQ v - qminList (dl.data.map toQ)) /
            (qmaxList (dl.data.map toQ) - qminList (dl.data.map toQ)) ≤ 1) := by
  have hv := validateNumeric_ok h1 h2
  have hmin : DynList.min dl = .ok (qminList (dl.data.map toQ)) := by
    unfold DynList.min
    rw [hv]
  have hmax : DynList.max dl = .ok (qmaxList (dl.data.map toQ)) := by
    unfold DynList.max
    rw [hv]
  constructor
  · intro heq
    simp [DynList.normalize, hv, hmin, hmax, heq]
  · intro hne
    have hmono : qminList (dl.data.map toQ) < qmaxList (dl.data.map toQ) := by
      obtain ⟨x, hx⟩ := List.exists_mem_of_ne_nil dl.data h1
      have hx' : toQ x ∈ dl.data.map toQ := List.mem_map_of_mem toQ hx
      exact lt_of_le_of_ne ((qminList_le hx').trans (le_qmaxList hx')) (Ne.symm hne)
    constructor
    · have hfl := @from_list_ok (dl.data.map (fun v =>
          PyVal.vFloat ((toQ v - qminList (dl.data.map toQ)) /
            (qmaxList (dl.data.map toQ) - qminList (dl.data.map toQ)))))
        (.tuple [.tInt, .tFloat]) (by
          intro w hw
          rcases List.mem_map.1 hw with ⟨u, _, rfl⟩
          rfl)
      simp [DynList.normalize, hv, hmin, hmax, hne, hfl]
    · intro v hvmem
      have hq : toQ v ∈ dl.data.map toQ := List.mem_map_of_mem toQ hvmem
      have hlo := qminList_le hq
      have hhi := le_qmaxList hq
      have hpos : 0 < qmaxList (dl.data.map toQ) - qminList (dl.data.map toQ) :=
        sub_pos.2 hmono
      constructor
      · exact div_nonneg (sub_nonneg.2 hlo) (le_of_lt hpos)
      · exact (div_le_one hpos).2 (sub_le_sub_right hhi _)

theorem C8_normalize_minmax_scaling_witness :
    DynList.normalize ⟨defaultAllowed, [.vInt 5, .vInt 5, .vInt 5]⟩ =
      .error .valueError ∧
    DynList.normalize ⟨defaultAllowed, [.vInt 1, .vInt 2, .vInt 3]⟩ =
      .ok ⟨.tuple [.tInt, .tFloat], [.vFloat 0, .vFloat (1/2), .vFloat 1]⟩ := by
  constructor
  · exact (C8_normalize_minmax_scaling ⟨defaultAllowed, [.vInt 5, .vInt 5, .vInt 5]⟩
      (by decide) (by decide)).1 (by decide)
  · have h := ((C8_normalize_minmax_scaling ⟨defaultAllowed, [.vInt 1, .vInt 2, .vInt 3]⟩
      (by decide) (by decide)).2 (by decide)).1
    rw [h]
    norm_num [toQ, qminList, qmaxList, qmin2, qmax2]

theorem percentileCore_50_eq_medianCore (qs : List ℚ) (h : qs ≠ []) :
    DynList.percentileCore qs 50 = DynList.medianCore qs := by
  have hn : 1 ≤ qs.length := List.length_pos.2 h
  simp only [DynList.percentileCore, DynList.medianCore]
  by_cases h1 : qs.length = 1
  · rw [if_pos h1, h1]
    norm_num
  · rw [if_neg h1]
    rcases Nat.even_or_odd qs.length with he | ho
    · obtain ⟨m, hm⟩ := he
      have hm1 : 1 ≤ m := by omega
      have hrank : (50 : ℚ) / 100 * ((qs.length : ℚ) - 1) = (m : ℚ) - 1 / 2 := by
        rw [hm]
        push_cast
        ring
      have hfloor : ⌊(m : ℚ) - 1 / 2⌋ = (m : ℤ) - 1 := by
        rw [Int.floor_eq_iff]
        constructor
        · push_cast
          linarith
        · push_cast
          linarith
      have htn : ((m : ℤ) - 1).toNat = m - 1 := by omega
      have hupper : Min.min (m - 1 + 1) (qs.length - 1) = m := by
        rw [hm]
        omega
      have hcast : ((m - 1 : ℕ) : ℚ) = (m : ℚ) - 1 := by
        push_cast [hm1]
        ring
      rw [hrank, hfloor, htn, hupper]
      rw [if_neg (by omega : ¬ qs.length % 2 ≠ 0)]
      have hmid : qs.length / 2 = m := by omega
      rw [hmid, hcast]
      ring
    · obtain ⟨m, hm⟩ := ho
      have hm1 : 1 ≤ m := by omega
      have hrank : (50 : ℚ) / 100 * ((qs.length : ℚ) - 1) = (m : ℚ) := by
        rw [hm]
        push_cast
        ring
      have hfloor : ⌊(m : ℚ)⌋ = (m : ℤ) := Int.floor_natCast m
      have htn : ((m : ℤ)).toNat = m := by omega
      have hupper : Min.min (m + 1) (qs.length - 1) = m + 1 := by
        rw [hm]
        omega
      rw [hrank, hfloor, htn, hupper]
      rw [if_pos (by omega : qs.length % 2 ≠ 0)]
      have hmid : qs.length / 2 = m := by omega
      rw [hmid]
      ring

/-- Claim C7: on a non-empty container whose allowed-type set is numeric,
`percentile(50)` — linear interpolation at rank `(50/100)*(n-1)` over the
sorted data — returns exactly the same value as `median()` (middle element
for odd length, average of the two central elements for even length). -/
theorem C7_percentile50_eq_median (dl : DynList) (h1 : dl.data ≠ [])
    (h2 : numericAllowed dl.allowed = true) :
    DynList.percentile dl 50 = DynList.median dl := by
  have hv := validateNumeric_ok h1 h2
  unfold DynList.percentile DynList.median
  rw [hv]
  show (if (0:ℚ) ≤ 50 ∧ (50:ℚ) ≤ 100 then
      Except.ok (DynList.percentileCore (sortQ (dl.data.map toQ)) 50)
    else Except.error Err.unknownValue) =
    Except.ok (DynList.medianCore (sortQ (dl.data.map toQ)))
  rw [if_pos (by norm_num)]
  have hne : sortQ (dl.data.map toQ) ≠ [] := by
    intro hcon
    apply h1
    have hlen := length_sortQ (dl.data.map toQ)
    rw [hcon] at hlen
    simp only [List.length_nil, List.length_map] at hlen
    exact List.length_eq_zero.1 hlen.symm
  rw [percentileCore_50_eq_medianCore _ hne]

theorem C7_percentile50_eq_median_witness :
    DynList.percentile ⟨defaultAllowed, [.vInt 1, .vInt 2, .vInt 3, .vInt 4]⟩ 50 =
      DynList.median ⟨defaultAllowed, [.vInt 1, .vInt 2, .vInt 3, .vInt 4]⟩ :=
  C7_percentile50_eq_median ⟨defaultAllowed, [.vInt 1, .vInt 2, .vInt 3, .vInt 4]⟩
    (by decide) (by decide)

theorem adjustIndex_pos_bounds {step : Int} (hs : 0 < step) (n : Nat) {d : Int}
    (hd : 0 ≤ d ∧ d ≤ (n : Int)) (o : Option Int) :
    0 ≤ adjustIndex step n d o ∧ adjustIndex step n d o ≤ (n : Int) := by
  cases o with
  | none => exact hd
  | some i =>
    simp only [adjustIndex]
    split_ifs <;> omega

theorem adjustIndex_neg_bounds {step : Int} (hs : step < 0) (n : Nat) {d : Int}
    (hd : -1 ≤ d ∧ d ≤ (n : Int) - 1) (o : Option Int) :
    -1 ≤ adjustIndex step n d o ∧ adjustIndex step n d o ≤ (n : Int) - 1 := by
  cases o with
  | none => exact hd
  | some i =>
    simp only [adjustIndex]
    split_ifs <;> omega

theorem count_mul_bound {m d k : Nat} (hm : 1 ≤ m)
    (hk : k < (d + (m - 1)) / m) : m * k + 1 ≤ d := by
  have hk1 : k + 1 ≤ (d + (m - 1)) / m := hk
  have h2 : (k + 1) * m ≤ ((d + (m - 1)) / m) * m := Nat.mul_le_mul_right m hk1
  have h3 : ((d + (m - 1)) / m) * m ≤ d + (m - 1) := Nat.div_mul_le_self (d + (m - 1)) m
  rw [Nat.succ_mul] at h2
  have hc : m * k = k * m := Nat.mul_comm m k
  rw [hc]
  generalize hA : k * m = A at h2 ⊢
  generalize hB : ((d + (m - 1)) / m) * m = B at h2 h3
  omega

theorem sliceIndices_ok {s : PySlice} {n : Nat} (h0 : s.step.getD 1 ≠ 0) :
    ∃ idxs, sliceIndices s n = .ok idxs ∧ ∀ i ∈ idxs, 0 ≤ i ∧ i < (n : Int) := by
  simp only [sliceIndices]
  rw [if_neg h0]
  refine ⟨_, rfl, ?_⟩
  intro i hi
  simp only [List.mem_map, List.mem_range] at hi
  obtain ⟨k, hk, rfl⟩ := hi
  set step := s.step.getD 1 with hstepdef
  set st := adjustIndex step n (if step < 0 then (n : Int) - 1 else 0) s.start with hstdef
  set sp := adjustIndex step n (if step < 0 then -1 else (n : Int)) s.stop with hspdef
  rcases lt_or_gt_of_ne h0 with hneg | hpos
  · have hstb : -1 ≤ st ∧ st ≤ (n : Int) - 1 := by
      rw [hstdef]
      exact adjustIndex_neg_bounds hneg n (by constructor <;> split_ifs <;> omega) s.start
    have hspb : -1 ≤ sp ∧ sp ≤ (n : Int) - 1 := by
      rw [hspdef]
      exact adjustIndex_neg_bounds hneg n (by constructor <;> split_ifs <;> omega) s.stop
    rw [if_neg (by omega : ¬ 0 < step)] at hk
    have hm : 1 ≤ (-step).toNat := by omega
    have key := count_mul_bound hm hk
    have hkey : ((-step).toNat : Int) * (k : Int) + 1 ≤ (((st - sp).toNat : ℕ) : Int) := by
      exact_mod_cast key
    rw [Int.toNat_of_nonneg (by omega : (0:Int) ≤ -step)] at hkey
    have hG : -step * (k : Int) = -(step * (k : Int)) := by ring
    rw [hG] at hkey
    have hGnp : step * (k : Int) ≤ 0 :=
      mul_nonpos_iff.2 (Or.inr ⟨le_of_lt hneg, Int.natCast_nonneg k⟩)
    generalize hGG : step * (k : Int) = G at hkey hGnp ⊢
    omega
  · have hstb : 0 ≤ st ∧ st ≤ (n : Int) := by
      rw [hstdef]
      exact adjustIndex_pos_bounds hpos n (by constructor <;> split_ifs <;> omega) s.start
    have hspb : 0 ≤ sp ∧ sp ≤ (n : Int) := by
      rw [hspdef]
      exact adjustIndex_pos_bounds hpos n (by constructor <;> split_ifs <;> omega) s.stop
    rw [if_pos hpos] at hk
    have hm : 1 ≤ step.toNat := by omega
    have key := count_mul_bound hm hk
    have hkey : (step.toNat : Int) * (k : Int) + 1 ≤ (((sp - st).toNat : ℕ) : Int) := by
      exact_mod_cast key
    rw [Int.toNat_of_nonneg (le_of_lt hpos)] at hkey
    have hGnn : 0 ≤ step * (k : Int) :=
      mul_nonneg (le_of_lt hpos) (Int.natCast_nonneg k)
    generalize hGG : step * (k : Int) = G at hkey hGnn ⊢
    omega

theorem getD_mem_of_lt {l : List PyVal} {n : Nat} {d : PyVal} (h : n < l.length) :
    l.getD n d ∈ l := by
  induction l generalizing n with
  | nil => simp at h
  | cons x xs ih =>
    cases n with
    | zero =>
      rw [List.getD_cons_zero]
      exact List.mem_cons_self _ _
    | succ m =>
      rw [List.getD_cons_succ]
      exact List.mem_cons_of_mem _ (ih (by simpa using h))

theorem gather_mem {l : List PyVal} {idxs : List Int}
    (h : ∀ i ∈ idxs, 0 ≤ i ∧ i < (l.length : Int)) :
    ∀ v ∈ gather l idxs, v ∈ l := by
  intro v hv
  rcases List.mem_map.1 hv with ⟨i, hi, rfl⟩
  have hb := h i hi
  exact getD_mem_of_lt (by omega)

/-- Claim C10 (amended): slicing never fails with an index-range error: for any
slice with a nonzero step — including slices whose bounds exceed the
container's length, which are clamped rather than rejected — `__getitem__`
returns a new container carrying the same allowed-type spec and holding
exactly the selected elements: the receiver's elements at the in-range
index list the slice semantics compute, in selection order (so in
particular every result element occurs in the receiver, which is left
unchanged, operations being pure); a zero-step slice is the one failing
case, raising Python's `ValueError` (still not an index-range error). -/
theorem C10_slice_indexing_never_range_errors (dl : DynList) (s : PySlice)
    (hInv : Inv dl) :
    (s.step ≠ some 0 →
      ∃ idxs, sliceIndices s dl.data.length = .ok idxs ∧
        (∀ i ∈ idxs, 0 ≤ i ∧ i < (dl.data.length : Int)) ∧
        DynList.getitemSlice dl s = .ok ⟨dl.allowed, gather dl.data idxs⟩ ∧
        ∀ v ∈ gather dl.data idxs, v ∈ dl.data) ∧
    (s.step = some 0 →
      DynList.getitemSlice dl s = .error .valueError) := by
  have hInv' : ∀ w ∈ dl.data, isinstance w dl.allowed = true := by
    simpa [Inv, List.all_eq_true] using hInv
  constructor
  · intro h0
    have hstep : s.step.getD 1 ≠ 0 := by
      cases hs : s.step with
      | none => simp
      | some v =>
        rw [hs] at h0
        simp only [Option.getD_some]
        intro hv
        exact h0 (by rw [hv])
    obtain ⟨idxs, hsl, hbnd⟩ := @sliceIndices_ok s dl.data.length hstep
    have hmem : ∀ v ∈ gather dl.data idxs, v ∈ dl.data := gather_mem hbnd
    refine ⟨idxs, hsl, hbnd, ?_, hmem⟩
    unfold DynList.getitemSlice
    rw [hsl]
    exact from_list_ok (fun v hv => hInv' v (hmem v hv))
  · intro h0
    unfold DynList.getitemSlice
    have hsl : sliceIndices s dl.data.length = .error .valueError := by
      simp [sliceIndices, h0]
    rw [hsl]

theorem C10_counterexample_zero_step_slice :
    DynList.getitemSlice ⟨defaultAllowed, [.vInt 1]⟩ ⟨none, none, some 0⟩ =
      .error .valueError := by
  rfl

theorem C10_slice_indexing_never_range_errors_witness :
    (∃ idxs, sliceIndices ⟨some 1, some 10, none⟩ 3 = .ok idxs ∧
      (∀ i ∈ idxs, 0 ≤ i ∧ i < (3 : Int)) ∧
      DynList.getitemSlice ⟨defaultAllowed, [.vInt 1, .vInt 2, .vInt 3]⟩
          ⟨some 1, some 10, none⟩ =
        .ok ⟨defaultAllowed, gather [.vInt 1, .vInt 2, .vInt 3] idxs⟩ ∧
      ∀ v ∈ gather [.vInt 1, .vInt 2, .vInt 3] idxs,
        v ∈ [PyVal.vInt 1, PyVal.vInt 2, PyVal.vInt 3]) ∧
    DynList.getitemSlice ⟨defaultAllowed, [.vInt 1, .vInt 2, .vInt 3]⟩
        ⟨some 1, some 10, none⟩ =
      .ok ⟨defaultAllowed, [.vInt 2, .vInt 3]⟩ :=
  ⟨(C10_slice_indexing_never_range_errors ⟨defaultAllowed, [.vInt 1, .vInt 2, .vInt 3]⟩
      ⟨some 1, some 10, none⟩ (by decide)).1 (by decide), by decide⟩

end PyDyn
